import Mathlib

/-!
Shallow embedding of `src/job_scheduler.py`, a single-host job scheduler that
keeps a FIFO job queue and a job history in a persisted JSON document guarded
by a lock.  The Python `deque` is modelled as a `List Job` whose head is the
left end of the deque (`popleft` = head, `appendleft` = cons, `append` =
push at the right end).  Each lock-protected load/mutate/save transaction of
the Python code becomes a pure function from the loaded `SchedState` to the
saved one; the environment (available system memory, `subprocess.Popen`
outcomes, the OS process table consulted through `psutil`) is passed in as
explicit parameters.
-/

/-- Mirrors the Python `Job` class: the fields stored for each job in
`jobs.json`.  `status` is one of the strings `"queued"`, `"running"`,
`"executed"`, `"failed"` in normal operation, and `pid` is `none` when the
JSON field is `null`/absent. -/
structure Job where
  job_id : Nat
  user : String
  command : String
  priority : Int
  memory : Nat
  compute : Nat
  status : String
  pid : Option Nat
deriving Repr, DecidableEq

/-- The persisted document: the `job_queue` deque (head of the list = front of
the deque) and the `job_history` list, as loaded by `load_jobs` and written by
`save_jobs`. -/
structure SchedState where
  job_queue : List Job
  job_history : List Job
deriving Repr, DecidableEq

/-- Outcome of `subprocess.Popen(job.command, shell=True)`: either a process
is created and has a pid, or the launch raises an exception. -/
inductive LaunchResult where
  | ok (pid : Nat)
  | fail
deriving Repr, DecidableEq

/-- What `psutil` reports for a pid inside `update_job_status`:
`noSuchProcess` is the `psutil.NoSuchProcess` exception, `zombieOrDead` means
`proc.status()` is `STATUS_ZOMBIE` or `STATUS_DEAD`, `notRunning` means the
process exists, is not zombie/dead, but `proc.is_running()` is false, and
`running` is a live process. -/
inductive ProcState where
  | noSuchProcess
  | zombieOrDead
  | notRunning
  | running
deriving Repr, DecidableEq

/-- Mirrors `submit_job` (lines 60-70): assign `job_id = len(job_history) + 1`,
build a fresh `Job` (constructor sets `status = 'queued'`, `pid = None`),
append it to the right end of the queue and to the history, save. -/
def submit_job (user command : String) (priority : Int) (memory compute : Nat)
    (s : SchedState) : SchedState :=
  let job_id := s.job_history.length + 1
  let job : Job := { job_id := job_id, user := user, command := command,
                     priority := priority, memory := memory, compute := compute,
                     status := "queued", pid := none }
  { job_queue := s.job_queue ++ [job], job_history := s.job_history ++ [job] }

/-- Mirrors the first locked transaction of `run_next_job` (lines 72-85 and
111-116): if the queue is empty nothing is saved (persisted state keeps the
loaded value).  Otherwise pop the front job; if available memory is below
`job.memory`, push the job back to the front and save.  Otherwise set
`status = 'running'`, launch the command, record the pid, replace the job's
history entry (drop entries with its id, append the updated record) and save.
`subprocess.Popen` is not wrapped in any exception handler: when the launch
raises, the function aborts before `save_jobs`, so the persisted state stays
exactly as loaded.  The second component is the dispatcher's in-memory `job`
object when a process was started (used by the checkpoint loop and the final
update), `none` otherwise. -/
def run_next_admission (availMem : Nat) (launch : LaunchResult)
    (s : SchedState) : SchedState × Option Job :=
  match s.job_queue with
  | [] => (s, none)
  | job :: rest =>
    if job.memory ≤ availMem then
      match launch with
      | LaunchResult.ok pid =>
        let job' : Job := { job with status := "running", pid := some pid }
        ({ job_queue := rest,
           job_history := s.job_history.filter (fun j => j.job_id != job'.job_id) ++ [job'] },
         some job')
      | LaunchResult.fail => (s, none)
    else
      ({ job_queue := job :: rest, job_history := s.job_history }, none)

/-- Mirrors one iteration of the supervision loop of `run_next_job`
(lines 88-95): while the child has not exited, reload the state, drop history
entries carrying the dispatched job's id, re-append the dispatcher's in-memory
`job` record (still `running` with its pid) and save. -/
def run_next_checkpoint (job : Job) (s : SchedState) : SchedState :=
  { job_queue := s.job_queue,
    job_history := s.job_history.filter (fun j => j.job_id != job.job_id) ++ [job] }

/-- Mirrors the final transaction of `run_next_job` (lines 97-109): after the
child exits, reload, set `status = 'executed'` when the return code is zero
and `'failed'` otherwise, clear `pid`, replace the job's history entry (drop
entries with its id, append the updated record) and save. -/
def run_next_finalize (job : Job) (returncode : Int) (s : SchedState) : SchedState :=
  let st := if returncode = 0 then "executed" else "failed"
  let job' : Job := { job with status := st, pid := none }
  { job_queue := s.job_queue,
    job_history := s.job_history.filter (fun j => j.job_id != job.job_id) ++ [job'] }

/-- Per-entry reclassification done by `update_job_status` (lines 123-135):
only entries with `status == 'running'` and a non-null pid are touched; a
zombie/dead process makes the entry `executed`, a live-but-not-running process
or a missing process makes it `failed`, and in every reclassification the pid
is cleared. -/
def reconcile_entry (procTable : Nat → ProcState) (job : Job) : Job :=
  if job.status = "running" then
    match job.pid with
    | some p =>
      match procTable p with
      | ProcState.zombieOrDead => { job with status := "executed", pid := none }
      | ProcState.notRunning => { job with status := "failed", pid := none }
      | ProcState.noSuchProcess => { job with status := "failed", pid := none }
      | ProcState.running => job
    | none => job
  else job

/-- Mirrors `update_job_status` (lines 118-139), the reconciler: reclassify
each history entry with `reconcile_entry`, keep only those whose resulting
status is not `'executed'`, and save the queue back unchanged. -/
def update_job_status (procTable : Nat → ProcState) (s : SchedState) : SchedState :=
  { job_queue := s.job_queue,
    job_history := (s.job_history.map (reconcile_entry procTable)).filter
      (fun j => j.status != "executed") }

/-- Mirrors `prioritize_job` (lines 189-200): scan the queue from the front
for the first job whose id matches, remove it and push it back at the front,
then save; when no queue entry matches, nothing is saved and the persisted
state keeps the loaded value. -/
def prioritize_job (jid : Nat) (s : SchedState) : SchedState :=
  match s.job_queue.find? (fun j => j.job_id == jid) with
  | none => s
  | some job =>
    { job_queue := job :: s.job_queue.eraseP (fun j => j.job_id == jid),
      job_history := s.job_history }

/-- Mirrors `clear_jobs_by_status` (lines 202-213): drop every entry whose
status equals the argument from both the queue and the history, save. -/
def clear_jobs_by_status (status : String) (s : SchedState) : SchedState :=
  { job_queue := s.job_queue.filter (fun j => j.status != status),
    job_history := s.job_history.filter (fun j => j.status != status) }

/-- Reachability of a persisted state together with the multiset of "in
flight" jobs: records held in memory by dispatcher invocations whose child
process has started but whose final status update has not run yet.  This is
exactly the sequence of lock-protected transactions the Python program can
perform starting from a missing `jobs.json` (which `load_jobs` reads as an
empty queue and empty history). -/
inductive Reach : SchedState → List Job → Prop where
  | init : Reach { job_queue := [], job_history := [] } []
  | submit {s : SchedState} {fl : List Job} (u c : String) (p : Int) (m cp : Nat) :
      Reach s fl → Reach (submit_job u c p m cp s) fl
  | runNext {s s' : SchedState} {fl : List Job} {oj : Option Job}
      (am : Nat) (l : LaunchResult) (h : run_next_admission am l s = (s', oj)) :
      Reach s fl → Reach s' (oj.toList ++ fl)
  | checkpoint {s : SchedState} {fl : List Job} (j : Job) (hj : j ∈ fl) :
      Reach s fl → Reach (run_next_checkpoint j s) fl
  | finalize {s : SchedState} {fl : List Job} (j : Job) (rc : Int) (hj : j ∈ fl) :
      Reach s fl → Reach (run_next_finalize j rc s) (fl.erase j)
  | reconcile {s : SchedState} {fl : List Job} (pt : Nat → ProcState) :
      Reach s fl → Reach (update_job_status pt s) fl
  | prioritize {s : SchedState} {fl : List Job} (jid : Nat) :
      Reach s fl → Reach (prioritize_job jid s) fl
  | clear {s : SchedState} {fl : List Job} (st : String) :
      Reach s fl → Reach (clear_jobs_by_status st s) fl

/-- Invariant I3 / P3 for one job record: the pid is present exactly when the
status is `'running'`. -/
def pid_ok (j : Job) : Prop := j.pid.isSome = true ↔ j.status = "running"

/-- Invariant I3 / P3 for a persisted state: every record in the queue and in
the history satisfies `pid_ok`. -/
def state_pid_ok (s : SchedState) : Prop :=
  (∀ j ∈ s.job_queue, pid_ok j) ∧ (∀ j ∈ s.job_history, pid_ok j)

/-- Auxiliary invariant on in-flight dispatcher records: they are `running`
and carry a pid. -/
def inflight_ok (fl : List Job) : Prop :=
  ∀ j ∈ fl, j.status = "running" ∧ j.pid.isSome = true

/-- Invariant I2 / P2 for a persisted state: every queue entry has status
`'queued'` and an identical history entry. -/
def coherent (s : SchedState) : Prop :=
  ∀ q ∈ s.job_queue, q.status = "queued" ∧ q ∈ s.job_history

instance coherent_decidable (s : SchedState) : Decidable (coherent s) :=
  inferInstanceAs (Decidable (∀ q ∈ s.job_queue, q.status = "queued" ∧ q ∈ s.job_history))

/-- Concrete fixture jobs used in witnesses and counterexamples. -/
def jA : Job := ⟨1, "alice", "true", 1, 0, 0, "queued", none⟩

def jB : Job := ⟨2, "bob", "true", 1, 0, 0, "queued", none⟩

def jBig : Job := ⟨1, "alice", "true", 1, 1000000, 0, "queued", none⟩

def jRun7 : Job := ⟨1, "alice", "sleep 5", 1, 0, 0, "running", some 7⟩

def ptZombie : Nat → ProcState := fun _ => ProcState.zombieOrDead

def sC3 : SchedState := { job_queue := [jBig], job_history := [jBig] }

def sC6 : SchedState := { job_queue := [jA], job_history := [jA] }

/-- The dispatched copies of `jA` used in the concrete traces below. -/
def jARun : Job := ⟨1, "alice", "true", 1, 0, 0, "running", some 7⟩

def jAExec : Job := ⟨1, "alice", "true", 1, 0, 0, "executed", none⟩

def jFail : Job := ⟨3, "carol", "false", 1, 0, 0, "failed", none⟩

def sC5 : SchedState := { job_queue := [], job_history := [jAExec] }

/-- Parameters of one `submit` invocation. -/
structure SubmitReq where
  user : String
  command : String
  priority : Int
  memory : Nat
  compute : Nat
deriving Repr, DecidableEq

/-- State reached from a missing `jobs.json` by a sequence of submissions
only (the head of the list is the most recent submission). -/
def submit_trace : List SubmitReq → SchedState
  | [] => { job_queue := [], job_history := [] }
  | r :: rs => submit_job r.user r.command r.priority r.memory r.compute (submit_trace rs)

/-- The second dispatched job and the duplicated-id submission used in the
traces below. -/
def jD : Job := ⟨2, "dave", "true", 1, 0, 0, "queued", none⟩

def jBRun : Job := ⟨2, "bob", "true", 1, 0, 0, "running", some 9⟩

/-- A reachable state in which two history entries share `job_id = 2`. -/
def sT6 : SchedState := { job_queue := [jB, jD], job_history := [jB, jD] }

/-- One more dispatch from `sT6`: the launch transaction drops *both* id-2
records from the history and appends the running copy of `jB`, leaving the
queued `jD` without any history entry. -/
def sT7 : SchedState := { job_queue := [jD], job_history := [jBRun] }

/-- C10: `update_job_status` saves the queue back exactly as it loaded it; the
reconciler only rewrites the history. -/
theorem C10_reconcile_queue_frame (pt : Nat → ProcState) (s : SchedState) :
    (update_job_status pt s).job_queue = s.job_queue := rfl

/-- C3: when the queue is non-empty and the head job's declared memory exceeds
the available memory, `run_next_job`'s admission transaction pushes the popped
head back to the front, so the saved state (queue order and contents, all
statuses, the whole history) equals the loaded one, and no dispatcher record
is produced (no process is launched), whatever the launcher would have done. -/
theorem C3_insufficient_memory_noop (am : Nat) (l : LaunchResult) (s : SchedState)
    (job : Job) (rest : List Job) (hq : s.job_queue = job :: rest)
    (hm : am < job.memory) :
    run_next_admission am l s = (s, none) := by
  obtain ⟨q, hist⟩ := s
  dsimp only at hq
  subst hq
  simp [run_next_admission, Nat.not_le.mpr hm]

/-- Witness for C3 at a concrete state: one queued job declaring 1000000 bytes
against 5 available bytes is pushed back and nothing changes. -/
theorem C3_insufficient_memory_noop_witness :
    run_next_admission 5 (LaunchResult.ok 9) sC3 = (sC3, none) :=
  C3_insufficient_memory_noop 5 (LaunchResult.ok 9) sC3 jBig [] rfl (by decide)

/-- C6 fails on the code: `subprocess.Popen` is not guarded by any exception
handler, so a launch failure aborts `run_next_job` before `save_jobs`; at this
concrete state (one queued job, enough memory, launch raising) the persisted
state is exactly the loaded one — the job is still queued at the head and no
history entry with status `failed` exists, contradicting the claim that the
job is recorded as `failed` with pid cleared. -/
theorem C6_launch_failure_counterexample :
    run_next_admission 100 LaunchResult.fail sC6 = (sC6, none) ∧
    (∀ x ∈ sC6.job_history, x.status ≠ "failed") ∧
    sC6.job_queue = [jA] ∧ jA.status = "queued" := by decide

/-- C6 amended: when the admitted head job's command cannot be launched, the
invocation aborts with the unhandled exception before saving, so the
persisted state is unchanged — the job remains at the head of the queue with
status `queued` and no `failed` record is written. -/
theorem C6_launch_failure_aborts (am : Nat) (s : SchedState) (job : Job)
    (rest : List Job) (hq : s.job_queue = job :: rest) (hm : job.memory ≤ am) :
    run_next_admission am LaunchResult.fail s = (s, none) := by
  obtain ⟨q, hist⟩ := s
  dsimp only at hq
  subst hq
  simp [run_next_admission, hm]

/-- Witness for the amended C6 at a concrete state. -/
theorem C6_launch_failure_aborts_witness :
    run_next_admission 100 LaunchResult.fail { job_queue := [jB], job_history := [jB] } =
      ({ job_queue := [jB], job_history := [jB] }, none) :=
  C6_launch_failure_aborts 100 { job_queue := [jB], job_history := [jB] } jB [] rfl (by decide)

/-- C2 fails on the code: at this concrete state one history entry is
`running` with pid 7 while the process table reports pid 7 as zombie/dead;
`update_job_status` classifies the entry as `executed` (and then prunes it),
not as `failed` as the claim requires. -/
theorem C2_reconcile_counterexample :
    jRun7.status = "running" ∧ jRun7.pid = some 7 ∧
    ptZombie 7 = ProcState.zombieOrDead ∧
    (reconcile_entry ptZombie jRun7).status = "executed" ∧
    (reconcile_entry ptZombie jRun7).status ≠ "failed" ∧
    (update_job_status ptZombie { job_queue := [], job_history := [jRun7] }).job_history
      = [] := by decide

/-- C2 amended: for a history entry with status `running` and a non-null pid,
the reconciler sets `status = failed` and clears `pid` when the OS process is
absent, or present but not running (and not zombie/dead); when the process is
present in a zombie/dead state it instead sets `status = executed`, clears
`pid`, and the same transaction prunes the entry (no entry of the saved
history has status `executed`). -/
theorem C2_reconcile_classification (pt : Nat → ProcState) (j : Job) (p : Nat)
    (hr : j.status = "running") (hp : j.pid = some p) :
    (pt p = ProcState.noSuchProcess →
      reconcile_entry pt j = { j with status := "failed", pid := none }) ∧
    (pt p = ProcState.notRunning →
      reconcile_entry pt j = { j with status := "failed", pid := none }) ∧
    (pt p = ProcState.zombieOrDead →
      reconcile_entry pt j = { j with status := "executed", pid := none }) ∧
    (∀ s : SchedState, ∀ x ∈ (update_job_status pt s).job_history,
      x.status ≠ "executed") := by
  refine ⟨fun h => ?_, fun h => ?_, fun h => ?_, fun s x hx => ?_⟩
  · simp [reconcile_entry, hr, hp, h]
  · simp [reconcile_entry, hr, hp, h]
  · simp [reconcile_entry, hr, hp, h]
  · simp only [update_job_status, List.mem_filter, bne_iff_ne, ne_eq] at hx
    exact hx.2

/-- Witness for the amended C2: a concrete `running` entry whose pid is
reported missing is reclassified to `failed` with pid cleared. -/
theorem C2_reconcile_classification_witness :
    reconcile_entry (fun _ => ProcState.noSuchProcess) jRun7 =
      { jRun7 with status := "failed", pid := none } :=
  (C2_reconcile_classification (fun _ => ProcState.noSuchProcess) jRun7 7
    (by decide) (by decide)).1 rfl

/-- C9: `clear_jobs_by_status s` removes exactly the entries whose status is
`s` from both queue and history: no surviving entry has status `s`, survivors
keep their original relative order (sublist), and every entry with a different
status survives. -/
theorem C9_clear_exactly_status (st : String) (s : SchedState) :
    (∀ j ∈ (clear_jobs_by_status st s).job_queue, j.status ≠ st) ∧
    (∀ j ∈ (clear_jobs_by_status st s).job_history, j.status ≠ st) ∧
    (clear_jobs_by_status st s).job_queue.Sublist s.job_queue ∧
    (clear_jobs_by_status st s).job_history.Sublist s.job_history ∧
    (∀ j ∈ s.job_queue, j.status ≠ st → j ∈ (clear_jobs_by_status st s).job_queue) ∧
    (∀ j ∈ s.job_history, j.status ≠ st → j ∈ (clear_jobs_by_status st s).job_history) := by
  refine ⟨fun j hj => ?_, fun j hj => ?_, ?_, ?_, fun j hj hne => ?_, fun j hj hne => ?_⟩
  · simp only [clear_jobs_by_status, List.mem_filter, bne_iff_ne, ne_eq] at hj
    exact hj.2
  · simp only [clear_jobs_by_status, List.mem_filter, bne_iff_ne, ne_eq] at hj
    exact hj.2
  · exact List.filter_sublist _
  · exact List.filter_sublist _
  · simp only [clear_jobs_by_status, List.mem_filter, bne_iff_ne, ne_eq]
    exact ⟨hj, hne⟩
  · simp only [clear_jobs_by_status, List.mem_filter, bne_iff_ne, ne_eq]
    exact ⟨hj, hne⟩

/-- Witness for C9 at a concrete state: clearing `"failed"` drops the failed
entry and keeps the queued one. -/
theorem C9_clear_exactly_status_witness :
    jB ∈ (clear_jobs_by_status "failed"
      { job_queue := [jB],
        job_history := [jB, { jA with status := "failed" }] }).job_history :=
  (C9_clear_exactly_status "failed"
      { job_queue := [jB],
        job_history := [jB, { jA with status := "failed" }] }).2.2.2.2.2 jB
    (by decide) (by decide)

/-- Helper: `find?` returns the first element satisfying the predicate in a
split list whose left part has no match. -/
theorem find_first_of_split {α : Type} (p : α → Bool) (l1 l2 : List α) (a : α)
    (h1 : ∀ x ∈ l1, ¬ p x = true) (h2 : p a = true) :
    (l1 ++ a :: l2).find? p = some a := by
  induction l1 with
  | nil => simpa using List.find?_cons_of_pos l2 h2
  | cons b t ih =>
    rw [List.cons_append, List.find?_cons_of_neg _ (h1 b (List.mem_cons_self b t))]
    exact ih (fun x hx => h1 x (List.mem_cons_of_mem b hx))

/-- Helper: `eraseP` removes exactly the first match in a split list whose
left part has no match. -/
theorem eraseP_first_of_split {α : Type} (p : α → Bool) (l1 l2 : List α) (a : α)
    (h1 : ∀ x ∈ l1, ¬ p x = true) (h2 : p a = true) :
    (l1 ++ a :: l2).eraseP p = l1 ++ l2 := by
  rw [List.eraseP_append_right _ h1, List.eraseP_cons_of_pos h2]

/-- C8: `prioritize_job jid` never touches the history; when no queue entry
carries the id the whole persisted state is unchanged; and when the queue
splits as `l1 ++ job :: l2` with `job` the first entry carrying the id, the
saved queue is `job :: (l1 ++ l2)` — the job moved to the front, everything
else in its original relative order. -/
theorem C8_prioritize_moves_to_front (jid : Nat) (s : SchedState) :
    (prioritize_job jid s).job_history = s.job_history ∧
    ((∀ x ∈ s.job_queue, x.job_id ≠ jid) → prioritize_job jid s = s) ∧
    (∀ l1 job l2, s.job_queue = l1 ++ job :: l2 → (∀ x ∈ l1, x.job_id ≠ jid) →
      job.job_id = jid →
      (prioritize_job jid s).job_queue = job :: (l1 ++ l2)) := by
  refine ⟨?_, fun hall => ?_, fun l1 job l2 hq h1 hid => ?_⟩
  · unfold prioritize_job
    split <;> rfl
  · have hf : s.job_queue.find? (fun j => j.job_id == jid) = none :=
      List.find?_eq_none.mpr (fun x hx => by simpa using hall x hx)
    unfold prioritize_job
    rw [hf]
  · have hf : s.job_queue.find? (fun j => j.job_id == jid) = some job := by
      rw [hq]
      exact find_first_of_split _ l1 l2 job (fun x hx => by simpa using h1 x hx)
        (by simpa using hid)
    unfold prioritize_job
    rw [hf]
    dsimp only
    rw [hq, eraseP_first_of_split _ l1 l2 job (fun x hx => by simpa using h1 x hx)
      (by simpa using hid)]

/-- Witness for C8 at a concrete state: with queue `[jA, jB]`, prioritizing
job 2 yields queue `[jB, jA]`. -/
theorem C8_prioritize_moves_to_front_witness :
    (prioritize_job 2 { job_queue := [jA, jB], job_history := [jA, jB] }).job_queue
      = jB :: ([jA] ++ []) :=
  (C8_prioritize_moves_to_front 2
      { job_queue := [jA, jB], job_history := [jA, jB] }).2.2 [jA] jB []
    (by decide) (by decide) (by decide)

/-- C5 fails on the code: the final status update of `run_next_job` removes
the stale entry and then appends the job again, now with status `executed` —
the job is present in the history immediately after that transaction.  The
violating state is reachable: submit one job, admit and launch it, and run
the final update with exit code zero. -/
theorem C5_executed_retained_counterexample :
    Reach sC5 [] ∧ jAExec ∈ sC5.job_history ∧ jAExec.status = "executed" ∧
    sC5 = run_next_finalize jARun 0 { job_queue := [], job_history := [jARun] } := by
  refine ⟨?_, by decide, by decide, by decide⟩
  have hadm : run_next_admission 100 (LaunchResult.ok 7)
      (submit_job "alice" "true" 1 0 0 { job_queue := [], job_history := [] })
      = ({ job_queue := [], job_history := [jARun] }, some jARun) := by decide
  have h2 := Reach.runNext 100 (LaunchResult.ok 7) hadm
    (Reach.submit "alice" "true" 1 0 0 Reach.init)
  have h3 := Reach.finalize jARun 0 (by decide) h2
  have e1 : run_next_finalize jARun 0 { job_queue := [], job_history := [jARun] }
      = sC5 := by decide
  have e2 : ((some jARun).toList ++ ([] : List Job)).erase jARun = [] := by decide
  rw [e1, e2] at h3
  exact h3

/-- C5 amended: the final status update with exit code zero writes the job
back into the history with status `executed` (it is not absent); the job is
removed by the next `update_job_status` sweep, which leaves no `executed`
entry; `failed` history entries survive `update_job_status` and are removed
by `clear_jobs_by_status "failed"`. -/
theorem C5_pruning_amended (j : Job) (s : SchedState) (pt : Nat → ProcState) :
    ({ j with status := "executed", pid := none } ∈
      (run_next_finalize j 0 s).job_history) ∧
    (∀ x ∈ (update_job_status pt s).job_history, x.status ≠ "executed") ∧
    (∀ x ∈ s.job_history, x.status = "failed" →
      x ∈ (update_job_status pt s).job_history) ∧
    (∀ x ∈ (clear_jobs_by_status "failed" s).job_history, x.status ≠ "failed") := by
  refine ⟨?_, fun x hx => ?_, fun x hx hfail => ?_, fun x hx => ?_⟩
  · simp [run_next_finalize]
  · simp only [update_job_status, List.mem_filter, bne_iff_ne, ne_eq] at hx
    exact hx.2
  · have hfix : reconcile_entry pt x = x := by
      simp [reconcile_entry, hfail]
    simp only [update_job_status, List.mem_filter]
    refine ⟨List.mem_map.mpr ⟨x, hx, hfix⟩, ?_⟩
    simp [hfail]
  · simp only [clear_jobs_by_status, List.mem_filter, bne_iff_ne, ne_eq] at hx
    exact hx.2

/-- Witness for the amended C5: the executed record is in the history right
after the final update, and a concrete failed entry survives reconciliation. -/
theorem C5_pruning_amended_witness :
    ({ jARun with status := "executed", pid := none } ∈
      (run_next_finalize jARun 0 { job_queue := [], job_history := [jARun] }).job_history) ∧
    jFail ∈ (update_job_status ptZombie
      { job_queue := [], job_history := [jFail] }).job_history :=
  ⟨(C5_pruning_amended jARun { job_queue := [], job_history := [jARun] } ptZombie).1,
   (C5_pruning_amended jFail { job_queue := [], job_history := [jFail] } ptZombie).2.2.1
     jFail (by decide) (by decide)⟩

/-- Helper: after `n` submissions the history holds `n` records. -/
theorem submit_trace_history_length (rs : List SubmitReq) :
    (submit_trace rs).job_history.length = rs.length := by
  induction rs with
  | nil => rfl
  | cons r rs ih => simp [submit_trace, submit_job, ih]

/-- C1 amended: `submit_job` assigns the new job the id
`count(history) + 1` (appending it while keeping all previous ids), and for
sequences consisting only of submissions the history ids are exactly
`1, …, n`, pairwise distinct.  (Once entries are removed from the history —
by `executed` pruning or `clear_jobs_by_status` — the counter goes back down
and ids are reassigned; see the counterexample.) -/
theorem C1_submit_only_ids_unique (ps : List SubmitReq) :
    ((submit_trace ps).job_history.map Job.job_id = List.range' 1 ps.length) ∧
    ((submit_trace ps).job_history.map Job.job_id).Nodup ∧
    (∀ u c pr m cp s, (submit_job u c pr m cp s).job_history.map Job.job_id
      = s.job_history.map Job.job_id ++ [s.job_history.length + 1]) := by
  have hmap : ∀ ps : List SubmitReq,
      (submit_trace ps).job_history.map Job.job_id = List.range' 1 ps.length := by
    intro ps
    induction ps with
    | nil => rfl
    | cons r rs ih =>
      have : List.range' 1 (rs.length + 1) = List.range' 1 rs.length ++ [rs.length + 1] := by
        rw [List.range'_concat 1 rs.length]
        simp [Nat.add_comm]
      simp [submit_trace, submit_job, ih, submit_trace_history_length, this]
  refine ⟨hmap ps, ?_, fun u c pr m cp s => by simp [submit_job]⟩
  rw [hmap ps]
  exact List.nodup_range' 1 ps.length

/-- Helper: `sT6` is reachable — submit alice and bob, dispatch and finish
alice's job (exit 0), reconcile (which prunes the `executed` record, making
`len(history)` fall back to 1), then submit dave, who receives id
`1 + 1 = 2`, already held by bob's queued job. -/
theorem reach_sT6 : Reach sT6 [] := by
  have hadm : run_next_admission 100 (LaunchResult.ok 7)
      (submit_job "bob" "true" 1 0 0
        (submit_job "alice" "true" 1 0 0 { job_queue := [], job_history := [] }))
      = ({ job_queue := [jB], job_history := [jB, jARun] }, some jARun) := by decide
  have h2 := Reach.runNext 100 (LaunchResult.ok 7) hadm
    (Reach.submit "bob" "true" 1 0 0 (Reach.submit "alice" "true" 1 0 0 Reach.init))
  have h3 := Reach.finalize jARun 0 (by decide) h2
  have h4 := Reach.reconcile (fun _ => ProcState.running) h3
  have h5 := Reach.submit "dave" "true" 1 0 0 h4
  have e1 : submit_job "dave" "true" 1 0 0
      ((fun s => update_job_status (fun _ => ProcState.running) s)
        (run_next_finalize jARun 0 { job_queue := [jB], job_history := [jB, jARun] }))
      = sT6 := by decide
  have e2 : ((some jARun).toList ++ ([] : List Job)).erase jARun = [] := by decide
  rw [e2] at h5
  exact e1 ▸ h5

/-- C1 fails on the code: in the reachable state `sT6` the history holds two
entries with `job_id = 2` — bob's queued job and dave's fresh submission,
whose id `len(job_history) + 1` recounts a history shrunk by the pruning of
alice's `executed` job.  So a `job_id` is reassigned after a removal, and two
history entries share an id. -/
theorem C1_duplicate_ids_counterexample :
    Reach sT6 [] ∧ sT6.job_history.map Job.job_id = [2, 2] ∧
    ¬ (sT6.job_history.map Job.job_id).Nodup :=
  ⟨reach_sT6, by decide, by decide⟩

/-- Helper: `sT7` is reachable from `sT6` by one more dispatch. -/
theorem reach_sT7 : Reach sT7 [jBRun] := by
  have hadm : run_next_admission 100 (LaunchResult.ok 9) sT6 = (sT7, some jBRun) := by
    decide
  exact Reach.runNext 100 (LaunchResult.ok 9) hadm reach_sT6

/-- Helper: `prioritize_job` saves the history back unchanged. -/
theorem prioritize_job_history_eq (jid : Nat) (s : SchedState) :
    (prioritize_job jid s).job_history = s.job_history := by
  unfold prioritize_job
  split <;> rfl

/-- Helper: every entry of the queue saved by `prioritize_job` was already in
the loaded queue. -/
theorem prioritize_job_queue_subset (jid : Nat) (s : SchedState) :
    (prioritize_job jid s).job_queue ⊆ s.job_queue := by
  unfold prioritize_job
  split
  · exact fun x hx => hx
  · next job heq =>
    intro x hx
    rcases List.mem_cons.mp hx with rfl | hx'
    · exact List.mem_of_find?_eq_some heq
    · exact (List.eraseP_sublist _).subset hx'

/-- Helper: `reconcile_entry` preserves the pid/status invariant. -/
theorem pid_ok_reconcile_entry (pt : Nat → ProcState) (j : Job) (h : pid_ok j) :
    pid_ok (reconcile_entry pt j) := by
  obtain ⟨id, u, c, pr, m, cp, st, pid⟩ := j
  by_cases hr : st = "running"
  · subst hr
    cases pid with
    | none => simp [pid_ok] at h
    | some p =>
      show pid_ok (reconcile_entry pt ⟨id, u, c, pr, m, cp, "running", some p⟩)
      unfold reconcile_entry
      cases hpt : pt p <;> simp [hpt, pid_ok]
  · have he : reconcile_entry pt ⟨id, u, c, pr, m, cp, st, pid⟩
        = ⟨id, u, c, pr, m, cp, st, pid⟩ := by
      unfold reconcile_entry
      simp [hr]
    rw [he]
    exact h

/-- Helper: the admission transaction either leaves the persisted state as it
loaded it and dispatches nothing, or it pops the head job within available
memory, launches it, and replaces its history entry by the running record. -/
theorem run_next_admission_cases {s s' : SchedState} {oj : Option Job}
    {am : Nat} {l : LaunchResult}
    (hadm : run_next_admission am l s = (s', oj)) :
    (s' = s ∧ oj = none) ∨
    (∃ job rest pid, s.job_queue = job :: rest ∧ job.memory ≤ am ∧
      l = LaunchResult.ok pid ∧
      oj = some { job with status := "running", pid := some pid } ∧
      s' = { job_queue := rest,
             job_history := s.job_history.filter (fun j => j.job_id != job.job_id)
               ++ [{ job with status := "running", pid := some pid }] }) := by
  obtain ⟨qs, hist⟩ := s
  cases qs with
  | nil =>
    simp only [run_next_admission, Prod.mk.injEq] at hadm
    exact Or.inl ⟨hadm.1.symm, hadm.2.symm⟩
  | cons job rest =>
    by_cases hm : job.memory ≤ am
    · cases l with
      | ok pid =>
        simp only [run_next_admission, if_pos hm, Prod.mk.injEq] at hadm
        exact Or.inr ⟨job, rest, pid, rfl, hm, rfl, hadm.2.symm, hadm.1.symm⟩
      | fail =>
        simp only [run_next_admission, if_pos hm, Prod.mk.injEq] at hadm
        exact Or.inl ⟨hadm.1.symm, hadm.2.symm⟩
    · simp only [run_next_admission, if_neg hm, Prod.mk.injEq] at hadm
      exact Or.inl ⟨hadm.1.symm, hadm.2.symm⟩

/-- Helper: every reachable persisted state satisfies the pid/status
invariant, and every in-flight dispatcher record is `running` with a pid. -/
theorem reach_pid_ok {s : SchedState} {fl : List Job} (h : Reach s fl) :
    state_pid_ok s ∧ inflight_ok fl := by
  induction h with
  | init =>
    refine ⟨⟨?_, ?_⟩, ?_⟩ <;> intro x hx <;> simp at hx
  | submit u c p m cp _ ih =>
    obtain ⟨⟨hq, hh⟩, hfl⟩ := ih
    refine ⟨⟨?_, ?_⟩, hfl⟩ <;> intro x hx <;>
      simp only [submit_job, List.mem_append, List.mem_singleton] at hx <;>
      rcases hx with hx | rfl
    · exact hq x hx
    · simp [pid_ok]
    · exact hh x hx
    · simp [pid_ok]
  | runNext am l hadm _ ih =>
    obtain ⟨⟨hq, hh⟩, hfl⟩ := ih
    rcases run_next_admission_cases hadm with ⟨rfl, rfl⟩ |
      ⟨job, rest, pid, hqs, hm, hl, rfl, rfl⟩
    · exact ⟨⟨hq, hh⟩, hfl⟩
    · refine ⟨⟨?_, ?_⟩, ?_⟩
      · intro x hx
        exact hq x (by rw [hqs]; exact List.mem_cons_of_mem _ hx)
      · intro x hx
        rcases List.mem_append.mp hx with hx | hx
        · exact hh x (List.mem_filter.mp hx).1
        · rcases List.mem_singleton.mp hx with rfl
          simp [pid_ok]
      · intro x hx
        have hx' : x ∈ { job with status := "running", pid := some pid } :: _ := hx
        rcases List.mem_cons.mp hx' with rfl | hx''
        · exact ⟨rfl, rfl⟩
        · exact hfl x hx''
  | checkpoint j hj _ ih =>
    obtain ⟨⟨hq, hh⟩, hfl⟩ := ih
    obtain ⟨hrun, hsome⟩ := hfl j hj
    refine ⟨⟨hq, ?_⟩, hfl⟩
    intro x hx
    rcases List.mem_append.mp hx with hx | hx
    · exact hh x (List.mem_filter.mp hx).1
    · rcases List.mem_singleton.mp hx with rfl
      exact iff_of_true hsome hrun
  | finalize j rc hj _ ih =>
    obtain ⟨⟨hq, hh⟩, hfl⟩ := ih
    refine ⟨⟨hq, ?_⟩, ?_⟩
    · intro x hx
      simp only [run_next_finalize, List.mem_append, List.mem_singleton] at hx
      rcases hx with hx | rfl
      · exact hh x (List.mem_filter.mp hx).1
      · by_cases h0 : rc = 0 <;> simp [pid_ok, h0]
    · intro x hx
      exact hfl x (List.erase_subset _ _ hx)
  | reconcile pt _ ih =>
    obtain ⟨⟨hq, hh⟩, hfl⟩ := ih
    refine ⟨⟨hq, ?_⟩, hfl⟩
    intro x hx
    obtain ⟨hx1, _⟩ := List.mem_filter.mp hx
    obtain ⟨y, hy, rfl⟩ := List.mem_map.mp hx1
    exact pid_ok_reconcile_entry pt y (hh y hy)
  | prioritize jid _ ih =>
    obtain ⟨⟨hq, hh⟩, hfl⟩ := ih
    refine ⟨⟨?_, ?_⟩, hfl⟩
    · intro x hx
      exact hq x (prioritize_job_queue_subset jid _ hx)
    · intro x hx
      rw [prioritize_job_history_eq] at hx
      exact hh x hx
  | clear st _ ih =>
    obtain ⟨⟨hq, hh⟩, hfl⟩ := ih
    refine ⟨⟨?_, ?_⟩, hfl⟩
    · intro x hx
      exact hq x (List.mem_filter.mp hx).1
    · intro x hx
      exact hh x (List.mem_filter.mp hx).1

/-- C4: in every reachable persisted state — after any sequence of
submissions, admissions, checkpoints, final status updates, reconciles,
prioritizations and clears — every job record in the queue and in the history
has a non-null pid exactly when its status is `running`. -/
theorem C4_pid_iff_running {s : SchedState} {fl : List Job} (h : Reach s fl) :
    state_pid_ok s :=
  (reach_pid_ok h).1

/-- Witness for C4 on a concrete reachable state. -/
theorem C4_pid_iff_running_witness :
    state_pid_ok (submit_job "alice" "true" 1 0 0 { job_queue := [], job_history := [] }) :=
  C4_pid_iff_running (Reach.submit "alice" "true" 1 0 0 Reach.init)

/-- C7 fails on the code: in the reachable state `sT7` the queued job `jD`
(id 2, a duplicate created by the id-reuse of `submit_job`) has no matching
history entry at all — the launch transaction for bob's job dropped every
history record with id 2 before appending the running copy. -/
theorem C7_incoherence_counterexample :
    Reach sT7 [jBRun] ∧ jD ∈ sT7.job_queue ∧ jD.status = "queued" ∧
    ¬ coherent sT7 :=
  ⟨reach_sT7, by decide, by decide, by decide⟩

/-- C7 amended: queue/history coherence (every queue entry queued, with an
identical history entry) is preserved by every transaction, provided the
job ids involved are not duplicated: the launch transaction needs the queue
ids pairwise distinct, and the checkpoint and final-update transactions need
the dispatched id to be absent from the queue.  (Without those provisos the
duplicate ids produced by `submit_job` id-reuse break coherence; see the
counterexample.) -/
theorem C7_coherence_preserved_amended (s : SchedState) (hc : coherent s) :
    (∀ u c p m cp, coherent (submit_job u c p m cp s)) ∧
    (∀ am l, (s.job_queue.map Job.job_id).Nodup →
      coherent (run_next_admission am l s).1) ∧
    (∀ j, (∀ q ∈ s.job_queue, q.job_id ≠ j.job_id) →
      coherent (run_next_checkpoint j s)) ∧
    (∀ j rc, (∀ q ∈ s.job_queue, q.job_id ≠ j.job_id) →
      coherent (run_next_finalize j rc s)) ∧
    (∀ pt, coherent (update_job_status pt s)) ∧
    (∀ jid, coherent (prioritize_job jid s)) ∧
    (∀ st, coherent (clear_jobs_by_status st s)) := by
  refine ⟨fun u c p m cp => ?_, fun am l hnd => ?_, fun j hid => ?_,
    fun j rc hid => ?_, fun pt => ?_, fun jid => ?_, fun st => ?_⟩
  · intro x hx
    simp only [submit_job, List.mem_append, List.mem_singleton] at hx
    rcases hx with hx | rfl
    · obtain ⟨h1, h2⟩ := hc x hx
      exact ⟨h1, by simp only [submit_job, List.mem_append]; exact Or.inl h2⟩
    · exact ⟨rfl, by simp [submit_job]⟩
  · have hadm : run_next_admission am l s =
        ((run_next_admission am l s).1, (run_next_admission am l s).2) := rfl
    rcases run_next_admission_cases hadm with ⟨h1, _⟩ |
      ⟨job, rest, pid, hqs, hm, hl, _, h1⟩
    · rw [h1]; exact hc
    · rw [h1]
      intro x hx
      have hx' : x ∈ rest := hx
      have hxq : x ∈ s.job_queue := by rw [hqs]; exact List.mem_cons_of_mem _ hx'
      obtain ⟨hst, hmem⟩ := hc x hxq
      refine ⟨hst, List.mem_append_left _ (List.mem_filter.mpr ⟨hmem, ?_⟩)⟩
      have hne : x.job_id ≠ job.job_id := by
        rw [hqs] at hnd
        simp only [List.map_cons, List.nodup_cons] at hnd
        intro hEq
        exact hnd.1 (hEq ▸ List.mem_map_of_mem Job.job_id hx')
      simpa using hne
  · intro x hx
    have hx' : x ∈ s.job_queue := hx
    obtain ⟨hst, hmem⟩ := hc x hx'
    refine ⟨hst, List.mem_append_left _ (List.mem_filter.mpr ⟨hmem, ?_⟩)⟩
    simpa using hid x hx'
  · intro x hx
    have hx' : x ∈ s.job_queue := hx
    obtain ⟨hst, hmem⟩ := hc x hx'
    refine ⟨hst, List.mem_append_left _ (List.mem_filter.mpr ⟨hmem, ?_⟩)⟩
    simpa using hid x hx'
  · intro x hx
    have hx' : x ∈ s.job_queue := hx
    obtain ⟨hst, hmem⟩ := hc x hx'
    refine ⟨hst, List.mem_filter.mpr ⟨?_, ?_⟩⟩
    · refine List.mem_map.mpr ⟨x, hmem, ?_⟩
      simp [reconcile_entry, hst]
    · simp [hst]
  · intro x hx
    obtain ⟨hst, hmem⟩ := hc x (prioritize_job_queue_subset jid s hx)
    exact ⟨hst, by rw [prioritize_job_history_eq]; exact hmem⟩
  · intro x hx
    obtain ⟨hxq, hkeep⟩ := List.mem_filter.mp hx
    obtain ⟨hst, hmem⟩ := hc x hxq
    exact ⟨hst, List.mem_filter.mpr ⟨hmem, hkeep⟩⟩

/-- Witness for the amended C7 at a concrete coherent two-job state: the
launch transaction keeps coherence when the queue ids are distinct. -/
theorem C7_coherence_preserved_amended_witness :
    coherent (run_next_admission 100 (LaunchResult.ok 7)
      { job_queue := [jA, jB], job_history := [jA, jB] }).1 :=
  (C7_coherence_preserved_amended { job_queue := [jA, jB], job_history := [jA, jB] }
    (by decide)).2.1 100 (LaunchResult.ok 7) (by decide)
